import Mathlib

/-!
Verification of the VNASelf dispatch-loop and scheduling core.

Shallow embedding of the scheduling engine in
`backend/server/calendar_server.py`, the dispatch orchestrator in
`backend/core/multi_agent_system.py`, and the storage services in
`backend/services/per_conversation_storage_service.py`,
`backend/services/conversation_service.py` and
`backend/services/chat_history_service.py`.

Time is modelled as minutes (a natural number) in the fixed reference
timezone Asia/Ho_Chi_Minh; a calendar day is 1440 minutes, so the absolute
minute of day `d` at hour `h` is `d * 1440 + h * 60`.
-/

namespace VNASelf

/-- Model of the Python `str.lower()` used throughout the attribution and
scheduling code: lowercase character by character. Written as a plain map
over the character list so that it evaluates by kernel reduction. -/
def pyLower (s : String) : String := ⟨s.data.map Char.toLower⟩

/-- Half-open time range `[start, stop)` in minutes of the reference timezone. -/
structure TimeRange where
  start : Nat
  stop : Nat
deriving Repr, DecidableEq

/-- Calendar event as seen through the Event Store interface. -/
structure Event where
  eid : Nat
  summary : String
  range : TimeRange
deriving Repr, DecidableEq

/-- Overlap test on half-open ranges (spec 4.1): touching endpoints do not
conflict. -/
def overlaps (a b : TimeRange) : Bool :=
  decide (a.start < b.stop) && decide (b.start < a.stop)

/-- Event Store query `events().list(timeMin=lo, timeMax=hi)`: the Google
Calendar list endpoint returns exactly the events whose end is after `timeMin`
and whose start is before `timeMax`, i.e. the events overlapping `[lo, hi)`. -/
def listEvents (store : List Event) (lo hi : Nat) : List Event :=
  store.filter (fun e => decide (lo < e.range.stop) && decide (e.range.start < hi))

/-- Point membership in a single range. -/
def covers (t : Nat) (r : TimeRange) : Prop :=
  r.start ≤ t ∧ t < r.stop

instance (t : Nat) (r : TimeRange) : Decidable (covers t r) :=
  inferInstanceAs (Decidable (_ ∧ _))

/-- Point membership in a union of ranges. -/
def inRanges (t : Nat) (rs : List TimeRange) : Prop :=
  ∃ r ∈ rs, covers t r

instance (t : Nat) (rs : List TimeRange) : Decidable (inRanges t rs) :=
  inferInstanceAs (Decidable (∃ r ∈ rs, covers t r))

/-- Ordering of busy periods by start time, as used by
`busy_periods.sort(key=lambda x: x[0])` in `check_availability`. -/
def startLE (a b : TimeRange) : Prop := a.start ≤ b.start

instance : DecidableRel startLE :=
  fun a b => inferInstanceAs (Decidable (a.start ≤ b.start))

instance : IsTotal TimeRange startLE := ⟨fun a b => Nat.le_total a.start b.start⟩

instance : IsTrans TimeRange startLE := ⟨fun _ _ _ h1 h2 => Nat.le_trans h1 h2⟩

/-- The free-period sweep of `check_availability`: walk the busy periods in
start order keeping a cursor `current`; emit a gap before each busy period
that begins after the cursor, advance the cursor with
`current = max(current, busy_end)`, and finally emit the tail gap up to the
end of the bounds. -/
def sweepFree (current hi : Nat) : List TimeRange → List TimeRange
  | [] => if current < hi then [⟨current, hi⟩] else []
  | b :: rest =>
      if current < b.start then
        ⟨current, b.start⟩ :: sweepFree (max current b.stop) hi rest
      else
        sweepFree (max current b.stop) hi rest

/-- Free periods computed by `check_availability` for bounds `[lo, hi)` and a
busy list: the busy periods are sorted by start, then swept. -/
def free_periods (lo hi : Nat) (busy : List TimeRange) : List TimeRange :=
  sweepFree lo hi (busy.insertionSort startLE)

/-- The `check_availability` tool for a store of events: the busy list is the
set of ranges of the events returned by the day query, the free list is the
complement inside the bounds. -/
def check_availability (store : List Event) (lo hi : Nat) :
    List TimeRange × List TimeRange :=
  let busy := (listEvents store lo hi).map (·.range)
  (busy, free_periods lo hi busy)

/-- Every gap emitted by the sweep starts at or after the cursor. -/
theorem sweepFree_le_start {l : List TimeRange} :
    ∀ {c hi : Nat}, ∀ r ∈ sweepFree c hi l, c ≤ r.start := by
  induction l with
  | nil =>
      intro c hi r hr
      simp only [sweepFree] at hr
      split at hr
      · simp only [List.mem_singleton] at hr
        subst hr
        exact Nat.le_refl c
      · exact absurd hr (List.not_mem_nil r)
  | cons b rest ih =>
      intro c hi r hr
      simp only [sweepFree] at hr
      split at hr
      · rcases List.mem_cons.mp hr with h | h
        · subst h
          exact Nat.le_refl c
        · exact Nat.le_trans (Nat.le_max_left c b.stop) (ih r h)
      · exact Nat.le_trans (Nat.le_max_left c b.stop) (ih r hr)

/-- Every gap emitted by the sweep ends at or before the bounds end, provided
every busy period starts before the bounds end. -/
theorem sweepFree_stop_le {l : List TimeRange} {hi : Nat}
    (hhi : ∀ b ∈ l, b.start ≤ hi) :
    ∀ {c : Nat}, ∀ r ∈ sweepFree c hi l, r.stop ≤ hi := by
  induction l with
  | nil =>
      intro c r hr
      simp only [sweepFree] at hr
      split at hr
      · simp only [List.mem_singleton] at hr
        subst hr
        exact Nat.le_refl hi
      · exact absurd hr (List.not_mem_nil r)
  | cons b rest ih =>
      intro c r hr
      have hrest : ∀ x ∈ rest, x.start ≤ hi := fun x hx => hhi x (List.mem_cons_of_mem b hx)
      simp only [sweepFree] at hr
      split at hr
      · rcases List.mem_cons.mp hr with h | h
        · subst h
          exact hhi b (List.mem_cons_self b rest)
        · exact ih hrest r h
      · exact ih hrest r hr

/-- Every gap emitted by the sweep is a nonempty range. -/
theorem sweepFree_wf {l : List TimeRange} :
    ∀ {c hi : Nat}, ∀ r ∈ sweepFree c hi l, r.start < r.stop := by
  induction l with
  | nil =>
      intro c hi r hr
      simp only [sweepFree] at hr
      split at hr
      · simp only [List.mem_singleton] at hr
        subst hr
        assumption
      · exact absurd hr (List.not_mem_nil r)
  | cons b rest ih =>
      intro c hi r hr
      simp only [sweepFree] at hr
      split at hr
      · rcases List.mem_cons.mp hr with h | h
        · subst h
          assumption
        · exact ih r h
      · exact ih r hr

/-- The gaps emitted by the sweep are chronologically ordered and pairwise
non-overlapping: each ends no later than the next starts. Needs the busy list
sorted by start and each busy range well-formed. -/
theorem sweepFree_pairwise {l : List TimeRange}
    (hsort : l.Pairwise startLE) (hwf : ∀ b ∈ l, b.start ≤ b.stop) :
    ∀ {c hi : Nat}, (sweepFree c hi l).Pairwise (fun a b => a.stop ≤ b.start) := by
  induction l with
  | nil =>
      intro c hi
      simp only [sweepFree]
      split
      · exact List.pairwise_singleton _ _
      · exact List.Pairwise.nil
  | cons b rest ih =>
      intro c hi
      have hsort' : rest.Pairwise startLE := (List.pairwise_cons.mp hsort).2
      have hwf' : ∀ x ∈ rest, x.start ≤ x.stop :=
        fun x hx => hwf x (List.mem_cons_of_mem b hx)
      simp only [sweepFree]
      split
      · refine List.pairwise_cons.mpr ⟨?_, ih hsort' hwf'⟩
        intro r hr
        have h1 : max c b.stop ≤ r.start := sweepFree_le_start r hr
        have h2 : b.start ≤ b.stop := hwf b (List.mem_cons_self b rest)
        exact Nat.le_trans h2 (Nat.le_trans (Nat.le_max_right c b.stop) h1)
      · exact ih hsort' hwf'

/-- Partition property of the sweep: a point of the bounds at or after the
cursor lies in some emitted gap exactly when it lies in no busy period. Needs
the busy list sorted by start. -/
theorem sweepFree_cover {l : List TimeRange} (hsort : l.Pairwise startLE) :
    ∀ {c hi t : Nat}, c ≤ t → t < hi →
      (inRanges t (sweepFree c hi l) ↔ ¬ inRanges t l) := by
  induction l with
  | nil =>
      intro c hi t hct hth
      simp only [sweepFree, if_pos (Nat.lt_of_le_of_lt hct hth)]
      simp only [inRanges, covers, List.mem_singleton, List.not_mem_nil]
      constructor
      · intro _ h
        rcases h with ⟨r, hr, _⟩
        exact hr.elim
      · intro _
        exact ⟨⟨c, hi⟩, rfl, hct, hth⟩
  | cons b rest ih =>
      intro c hi t hct hth
      have hb : ∀ x ∈ rest, b.start ≤ x.start := fun x hx =>
        (List.pairwise_cons.mp hsort).1 x hx
      have hsort' : rest.Pairwise startLE := (List.pairwise_cons.mp hsort).2
      have tail_out : t < max c b.stop →
          ¬ inRanges t (sweepFree (max c b.stop) hi rest) := by
        intro hlt h
        rcases h with ⟨r, hr, hcov⟩
        exact absurd (Nat.le_trans (sweepFree_le_start r hr) hcov.1)
          (Nat.not_le_of_lt hlt)
      simp only [sweepFree]
      split
      · rename_i hcb
        by_cases htb : t < b.start
        · constructor
          · intro _
            intro h
            rcases h with ⟨r, hr, hcov⟩
            rcases List.mem_cons.mp hr with h | h
            · subst h
              exact absurd hcov.1 (Nat.not_le_of_lt htb)
            · exact absurd (Nat.le_trans (hb r h) hcov.1) (Nat.not_le_of_lt htb)
          · intro _
            exact ⟨⟨c, b.start⟩, List.mem_cons_self _ _, hct, htb⟩
        · push_neg at htb
          by_cases hts : t < b.stop
          · have hbcov : inRanges t (b :: rest) :=
              ⟨b, List.mem_cons_self b rest, htb, hts⟩
            have hout : ¬ inRanges t (sweepFree (max c b.stop) hi rest) :=
              tail_out (Nat.lt_of_lt_of_le hts (Nat.le_max_right c b.stop))
            constructor
            · intro h
              rcases h with ⟨r, hr, hcov⟩
              rcases List.mem_cons.mp hr with h | h
              · subst h
                exact absurd hcov.2 (Nat.not_lt_of_le htb)
              · exact absurd ⟨r, h, hcov⟩ hout
            · intro h
              exact absurd hbcov h
          · push_neg at hts
            have hmax : max c b.stop ≤ t := Nat.max_le.mpr ⟨hct, hts⟩
            have hiht := ih hsort' hmax hth
            constructor
            · intro h
              rcases h with ⟨r, hr, hcov⟩
              rcases List.mem_cons.mp hr with h | h
              · subst h
                exact absurd hcov.2 (Nat.not_lt_of_le htb)
              · intro hcon
                rcases hcon with ⟨q, hq, hqcov⟩
                rcases List.mem_cons.mp hq with h2 | h2
                · subst h2
                  exact absurd hqcov.2 (Nat.not_lt_of_le hts)
                · exact absurd ⟨q, h2, hqcov⟩ (hiht.mp ⟨r, h, hcov⟩)
            · intro h
              have hrest : ¬ inRanges t rest := by
                intro hcon
                rcases hcon with ⟨q, hq, hqcov⟩
                exact h ⟨q, List.mem_cons_of_mem b hq, hqcov⟩
              rcases hiht.mpr hrest with ⟨r, hr, hcov⟩
              exact ⟨r, List.mem_cons_of_mem _ hr, hcov⟩
      · rename_i hcb
        push_neg at hcb
        by_cases hts : t < b.stop
        · have hbcov : inRanges t (b :: rest) :=
            ⟨b, List.mem_cons_self b rest, Nat.le_trans hcb hct, hts⟩
          have hout : ¬ inRanges t (sweepFree (max c b.stop) hi rest) :=
            tail_out (Nat.lt_of_lt_of_le hts (Nat.le_max_right c b.stop))
          constructor
          · intro h
            exact absurd h hout
          · intro h
            exact absurd hbcov h
        · push_neg at hts
          have hmax : max c b.stop ≤ t := Nat.max_le.mpr ⟨hct, hts⟩
          have hiht := ih hsort' hmax hth
          constructor
          · intro h
            intro hcon
            rcases hcon with ⟨q, hq, hqcov⟩
            rcases List.mem_cons.mp hq with h2 | h2
            · subst h2
              exact absurd hqcov.2 (Nat.not_lt_of_le hts)
            · exact absurd ⟨q, h2, hqcov⟩ (hiht.mp h)
          · intro h
            refine hiht.mpr ?_
            intro hcon
            rcases hcon with ⟨q, hq, hqcov⟩
            exact h ⟨q, List.mem_cons_of_mem b hq, hqcov⟩

/-- Sorting the busy list does not change which points are busy. -/
theorem inRanges_insertionSort (t : Nat) (busy : List TimeRange) :
    inRanges t (busy.insertionSort startLE) ↔ inRanges t busy := by
  unfold inRanges
  constructor
  · rintro ⟨r, hr, hcov⟩
    exact ⟨r, (List.perm_insertionSort startLE busy).mem_iff.mp hr, hcov⟩
  · rintro ⟨r, hr, hcov⟩
    exact ⟨r, (List.perm_insertionSort startLE busy).mem_iff.mpr hr, hcov⟩

/-- C2: for every bounds range and every well-formed busy list drawn from the
Event Store query, the free windows computed by the sweep in
`check_availability` are pairwise non-overlapping and chronologically ordered,
lie inside the bounds, and partition the bounds together with the busy time:
a point of the bounds is free exactly when it is in no busy range. With no
busy ranges the entire bounds is reported free, and bounds 09:00-18:00 with
one busy event 10:00-11:00 yield free = [09:00-10:00, 11:00-18:00]. -/
theorem check_availability_correct (store : List Event) (lo hi : Nat)
    (hwf : ∀ e ∈ store, e.range.start < e.range.stop) (hlohi : lo < hi) :
    ((check_availability store lo hi).2.Pairwise fun a b => a.stop ≤ b.start)
    ∧ (∀ r ∈ (check_availability store lo hi).2,
        lo ≤ r.start ∧ r.stop ≤ hi ∧ r.start < r.stop)
    ∧ (∀ t, lo ≤ t → t < hi →
        (inRanges t (check_availability store lo hi).2 ↔
          ¬ inRanges t (check_availability store lo hi).1))
    ∧ (listEvents store lo hi = [] → (check_availability store lo hi).2 = [⟨lo, hi⟩])
    ∧ check_availability [⟨1, "Busy", ⟨600, 660⟩⟩] 540 1080 =
        ([⟨600, 660⟩], [⟨540, 600⟩, ⟨660, 1080⟩]) := by
  have hbwf : ∀ b ∈ (listEvents store lo hi).map (·.range), b.start ≤ b.stop := by
    intro b hb
    rcases List.mem_map.mp hb with ⟨e, he, heq⟩
    subst heq
    exact Nat.le_of_lt (hwf e (List.mem_of_mem_filter he))
  have hbhi : ∀ b ∈ (listEvents store lo hi).map (·.range), b.start ≤ hi := by
    intro b hb
    rcases List.mem_map.mp hb with ⟨e, he, heq⟩
    subst heq
    have := List.of_mem_filter he
    simp only [Bool.and_eq_true, decide_eq_true_eq] at this
    exact Nat.le_of_lt this.2
  have hswf : ∀ b ∈ ((listEvents store lo hi).map (·.range)).insertionSort startLE,
      b.start ≤ b.stop := by
    intro b hb
    exact hbwf b ((List.perm_insertionSort startLE _).mem_iff.mp hb)
  have hshi : ∀ b ∈ ((listEvents store lo hi).map (·.range)).insertionSort startLE,
      b.start ≤ hi := by
    intro b hb
    exact hbhi b ((List.perm_insertionSort startLE _).mem_iff.mp hb)
  have hsort : (((listEvents store lo hi).map (·.range)).insertionSort
      startLE).Pairwise startLE :=
    List.sorted_insertionSort startLE _
  refine ⟨?_, ?_, ?_, ?_, by decide⟩
  · exact sweepFree_pairwise hsort hswf
  · intro r hr
    exact ⟨sweepFree_le_start r hr, sweepFree_stop_le hshi r hr, sweepFree_wf r hr⟩
  · intro t hlt hth
    exact (sweepFree_cover hsort hlt hth).trans
      (not_congr (inRanges_insertionSort t _))
  · intro hempty
    show sweepFree lo hi _ = _
    rw [show listEvents store lo hi = [] from hempty]
    simp only [List.map_nil, List.insertionSort, sweepFree, if_pos hlohi]

/-- Witness for `check_availability_correct`: the bounds 09:00-18:00 (minutes
540-1080) with one busy event 10:00-11:00 give exactly the two free windows
09:00-10:00 and 11:00-18:00. -/
theorem check_availability_correct_witness :
    check_availability [⟨1, "Busy", ⟨600, 660⟩⟩] 540 1080 =
      ([⟨600, 660⟩], [⟨540, 600⟩, ⟨660, 1080⟩]) :=
  (check_availability_correct [⟨1, "Busy", ⟨600, 660⟩⟩] 540 1080
    (by decide) (by decide)).2.2.2.2

/-- The `check_conflicts` tool: the events the store returns for the queried
range. An empty result means the slot is available. -/
def check_conflicts (store : List Event) (lo hi : Nat) : List Event :=
  listEvents store lo hi

/-- Conflict error carrying the list of conflicting events, the model of the
CONFLICT DETECTED reply of `create_event_with_conflict_check`. -/
structure ConflictError where
  conflicts : List Event
deriving Repr, DecidableEq

/-- Event creation through the Event Store interface
(`events().insert(...)`): the store appends the new event and returns it with
a fresh id. -/
def createEvent (store : List Event) (summary : String) (lo hi : Nat) :
    Event × List Event :=
  let ev : Event := ⟨store.length, summary, ⟨lo, hi⟩⟩
  (ev, store ++ [ev])

/-- The `create_event_with_conflict_check` tool: run `check_conflicts` first;
if it reports conflicts and `force_create` is false, fail with the conflict
list and leave the store unchanged; otherwise create the event, flagging the
result as forced (the WARNING reply) exactly when conflicts were overridden. -/
def create_event_with_conflict_check (store : List Event) (summary : String)
    (lo hi : Nat) (force_create : Bool) :
    Except ConflictError (Event × Bool) × List Event :=
  let conflicts := check_conflicts store lo hi
  if ¬ conflicts.isEmpty ∧ force_create = false then
    (Except.error ⟨conflicts⟩, store)
  else
    let created := createEvent store summary lo hi
    (Except.ok (created.1, force_create && !conflicts.isEmpty), created.2)

/-- The legacy `create_event` tool: delegates to
`create_event_with_conflict_check` with `force_create=True`. -/
def create_event (store : List Event) (summary : String) (lo hi : Nat) :
    Except ConflictError (Event × Bool) × List Event :=
  create_event_with_conflict_check store summary lo hi true

/-- The events returned by the store query are exactly the stored events whose
range overlaps the query range. -/
theorem listEvents_eq_overlap_filter (store : List Event) (lo hi : Nat) :
    listEvents store lo hi =
      store.filter (fun e => overlaps ⟨lo, hi⟩ e.range) := by
  unfold listEvents overlaps
  rfl

/-- C3: if the prior conflict check finds conflicting events and force-create
is off, the call fails with a conflict error listing exactly the events whose
range overlaps the request, and the store is unchanged; otherwise the event is
created (appended to the store) and returned, and the result is flagged as
forced exactly when conflicts existed and force-create was on. -/
theorem create_event_with_conflict_check_spec (store : List Event)
    (summary : String) (lo hi : Nat) (force_create : Bool) :
    (check_conflicts store lo hi ≠ [] → force_create = false →
      create_event_with_conflict_check store summary lo hi force_create =
        (Except.error ⟨store.filter (fun e => overlaps ⟨lo, hi⟩ e.range)⟩, store))
    ∧ ((check_conflicts store lo hi = [] ∨ force_create = true) →
      create_event_with_conflict_check store summary lo hi force_create =
        (Except.ok (⟨store.length, summary, ⟨lo, hi⟩⟩,
            force_create && !(check_conflicts store lo hi).isEmpty),
          store ++ [⟨store.length, summary, ⟨lo, hi⟩⟩])) := by
  constructor
  · intro hne hforce
    unfold create_event_with_conflict_check
    rw [if_pos ⟨fun h => hne (List.isEmpty_iff.mp h), hforce⟩]
    rw [← listEvents_eq_overlap_filter]
    rfl
  · intro h
    unfold create_event_with_conflict_check
    rw [if_neg]
    · rfl
    · rintro ⟨hne, hforce⟩
      rcases h with h | h
      · exact hne (List.isEmpty_iff.mpr h)
      · rw [h] at hforce
        exact absurd hforce (by decide)

/-- Witness for `create_event_with_conflict_check_spec`: with one stored event
10:00-11:00 and an overlapping request 10:30-11:30, force off fails with that
one event and leaves the store unchanged, and force on creates the event with
the forced flag. -/
theorem create_event_with_conflict_check_spec_witness :
    create_event_with_conflict_check [⟨0, "Standup", ⟨600, 660⟩⟩] "New" 630 690 false =
      (Except.error ⟨[⟨0, "Standup", ⟨600, 660⟩⟩]⟩, [⟨0, "Standup", ⟨600, 660⟩⟩])
    ∧ create_event_with_conflict_check [⟨0, "Standup", ⟨600, 660⟩⟩] "New" 630 690 true =
      (Except.ok (⟨1, "New", ⟨630, 690⟩⟩, true),
        [⟨0, "Standup", ⟨600, 660⟩⟩, ⟨1, "New", ⟨630, 690⟩⟩]) := by
  constructor
  · exact (create_event_with_conflict_check_spec [⟨0, "Standup", ⟨600, 660⟩⟩]
      "New" 630 690 false).1 (by decide) rfl
  · exact (create_event_with_conflict_check_spec [⟨0, "Standup", ⟨600, 660⟩⟩]
      "New" 630 690 true).2 (Or.inr rfl)

/-- C9: the legacy `create_event` behaves exactly like
`create_event_with_conflict_check` with force-create on, and consequently it
always succeeds, even when the requested range overlaps existing events. -/
theorem create_event_refines_forced (store : List Event) (summary : String)
    (lo hi : Nat) :
    create_event store summary lo hi =
      create_event_with_conflict_check store summary lo hi true
    ∧ ∃ ev forced, (create_event store summary lo hi).1 =
        Except.ok (ev, forced) := by
  refine ⟨rfl, ⟨store.length, summary, ⟨lo, hi⟩⟩,
    !(check_conflicts store lo hi).isEmpty, ?_⟩
  unfold create_event create_event_with_conflict_check createEvent
  rw [if_neg]
  · simp
  · rintro ⟨_, hforce⟩
    exact absurd hforce (by decide)

/-- Candidate hours probed by `suggest_alternative_times`, as minutes of the
day: 9:00, 10:00, 11:00, 14:00, 15:00 and 16:00. -/
def alt_time_slots : List Nat := [540, 600, 660, 840, 900, 960]

/-- The `suggest_alternative_times` tool. `startDay` is the calendar day of
the original start (`original_start.date()`). For each day offset
`0..days_ahead` (outer loop) and each candidate hour (inner loop) the tool
builds a slot of `dur` minutes and keeps it when the store query for the slot
returns no events; the repeated `len(suggestions) >= 5` break checks truncate
the search at the first five kept slots, so the result is the first five free
slots of the candidate stream. The current clock is never consulted. -/
def suggest_alternative_times (store : List Event) (startDay daysAhead dur : Nat) :
    List TimeRange :=
  (((List.range (daysAhead + 1)).flatMap fun d =>
      alt_time_slots.map fun m =>
        TimeRange.mk ((startDay + d) * 1440 + m) ((startDay + d) * 1440 + m + dur)).filter
    (fun s => (listEvents store s.start s.stop).isEmpty)).take 5

/-- C1 counterexample: `suggest_alternative_times` never reads the clock, so
its slots can start before now. With an empty store, an original start on day
0 and the current time 10:00 of day 0 (minute 600), the first suggested slot
is 9:00-10:00 of day 0 (minutes 540-600), which starts before now. -/
theorem suggest_alternative_times_past_slot :
    (suggest_alternative_times [] 0 7 60).head? = some ⟨540, 600⟩ ∧ 540 < 600 := by
  constructor
  · rfl
  · decide

/-- C1 amended: `suggest_alternative_times` returns at most 5 slot candidates
and no returned candidate overlaps any event of the store; slots may however
start before the current time, which the tool never consults. -/
theorem suggest_alternative_times_sound (store : List Event)
    (startDay daysAhead dur : Nat) :
    (suggest_alternative_times store startDay daysAhead dur).length ≤ 5
    ∧ ∀ s ∈ suggest_alternative_times store startDay daysAhead dur,
        ∀ e ∈ store, overlaps s e.range = false := by
  constructor
  · calc (suggest_alternative_times store startDay daysAhead dur).length
        = min 5 _ := List.length_take 5 _
      _ ≤ 5 := Nat.min_le_left 5 _
  · intro s hs e he
    have hs' := List.mem_of_mem_take hs
    have hfree : (listEvents store s.start s.stop).isEmpty = true := by
      simpa using List.of_mem_filter hs'
    have hnil : listEvents store s.start s.stop = [] := List.isEmpty_iff.mp hfree
    have := List.filter_eq_nil_iff.mp hnil e he
    unfold overlaps
    simpa using this

/-- Witness for `suggest_alternative_times_sound`: with one stored event
10:00-11:00 of day 0, the slot 9:00-10:00 of day 0 is among the suggestions,
and it indeed does not overlap the stored event. -/
theorem suggest_alternative_times_sound_witness :
    overlaps ⟨540, 600⟩ ⟨600, 660⟩ = false :=
  (suggest_alternative_times_sound [⟨7, "Standup", ⟨600, 660⟩⟩] 0 7 60).2
    ⟨540, 600⟩ (by decide) ⟨7, "Standup", ⟨600, 660⟩⟩ (by decide)

/-- Activity names routed to the meeting windows by `suggest_optimal_time`. -/
def meetingNames : List String :=
  ["meeting", "họp", "cuộc họp", "team meeting", "client meeting"]

/-- Activity names routed to the focus-work windows. -/
def focusNames : List String :=
  ["focus work", "deep work", "coding", "writing", "analysis"]

/-- Activity names routed to the creative-work windows. -/
def creativeNames : List String :=
  ["creative work", "brainstorming", "planning", "design"]

/-- Activity names routed to the administrative windows. -/
def adminNames : List String :=
  ["admin", "email", "routine", "administrative"]

/-- Optimal hour windows per activity type, in minutes of the day, as chosen
by `suggest_optimal_time` on the lowercased activity string. -/
def optimal_ranges (act : String) : List (Nat × Nat) :=
  if meetingNames.contains (pyLower act) then [(600, 690), (810, 900)]
  else if focusNames.contains (pyLower act) then [(540, 660), (840, 960)]
  else if creativeNames.contains (pyLower act) then [(600, 720), (900, 1020)]
  else if adminNames.contains (pyLower act) then [(540, 600), (960, 1020)]
  else [(600, 690), (810, 900)]

/-- The `calculate_productivity_score` helper: base 5, then the sequential
elif chain of time-of-day adjustments (the `10 <= hour <= 11` branch is dead,
being subsumed by the first branch), then the activity-specific bonus, then
the weekday bonus, clamped into 1..10. Weekday 0 is Monday. -/
def calculate_productivity_score (hour : Nat) (act : String) (weekday : Nat) : Int :=
  let base : Int := 5
  let s1 : Int :=
    if 9 ≤ hour ∧ hour ≤ 11 then base + 3
    else if 14 ≤ hour ∧ hour ≤ 16 then base + 2
    else if 10 ≤ hour ∧ hour ≤ 11 then base + 1
    else if hour < 9 ∨ 17 < hour then base - 2
    else base
  let s2 : Int :=
    if ["meeting", "họp"].contains (pyLower act) then
      if (10 ≤ hour ∧ hour ≤ 11) ∨ (13 ≤ hour ∧ hour ≤ 15) then s1 + 2 else s1
    else if ["focus work", "coding"].contains (pyLower act) then
      if 9 ≤ hour ∧ hour ≤ 11 then s1 + 3 else s1
    else if ["creative work"].contains (pyLower act) then
      if 10 ≤ hour ∧ hour ≤ 12 then s1 + 2 else s1
    else s1
  let s3 : Int := if weekday ≤ 4 then s2 + 1 else s2
  min 10 (max 1 s3)

/-- Clamp an integer into `[lo, hi]`. -/
def clamp (lo hi x : Int) : Int := min hi (max lo x)

/-- Time-of-day bonus as the spec states it: +3 for hours 9-11, +2 for hours
14-16, -2 outside 9-17, otherwise 0. -/
def timeOfDayBonus (hour : Nat) : Int :=
  if 9 ≤ hour ∧ hour ≤ 11 then 3
  else if 14 ≤ hour ∧ hour ≤ 16 then 2
  else if hour < 9 ∨ 17 < hour then -2
  else 0

/-- Activity bonus as the spec states it: +2 or +3 when the hour matches the
ideal sub-window of the activity. -/
def activityBonus (act : String) (hour : Nat) : Int :=
  if ["meeting", "họp"].contains (pyLower act) then
    if (10 ≤ hour ∧ hour ≤ 11) ∨ (13 ≤ hour ∧ hour ≤ 15) then 2 else 0
  else if ["focus work", "coding"].contains (pyLower act) then
    if 9 ≤ hour ∧ hour ≤ 11 then 3 else 0
  else if ["creative work"].contains (pyLower act) then
    if 10 ≤ hour ∧ hour ≤ 12 then 2 else 0
  else 0

/-- Weekday bonus: +1 Monday to Friday (weekday indices 0-4). -/
def weekdayBonus (weekday : Nat) : Int := if weekday ≤ 4 then 1 else 0

/-- The time-of-day elif chain adds exactly the spec time-of-day bonus to the
base score; the dead `10 <= hour <= 11` branch never fires. -/
theorem productivity_time_step (hour : Nat) :
    (if 9 ≤ hour ∧ hour ≤ 11 then (5 : Int) + 3
      else if 14 ≤ hour ∧ hour ≤ 16 then (5 : Int) + 2
      else if 10 ≤ hour ∧ hour ≤ 11 then (5 : Int) + 1
      else if hour < 9 ∨ 17 < hour then (5 : Int) - 2
      else (5 : Int)) = 5 + timeOfDayBonus hour := by
  unfold timeOfDayBonus
  split_ifs <;> omega

/-- The activity elif chain adds exactly the spec activity bonus. -/
theorem productivity_activity_step (act : String) (hour : Nat) (s : Int) :
    (if ["meeting", "họp"].contains (pyLower act) then
        if (10 ≤ hour ∧ hour ≤ 11) ∨ (13 ≤ hour ∧ hour ≤ 15) then s + 2 else s
      else if ["focus work", "coding"].contains (pyLower act) then
        if 9 ≤ hour ∧ hour ≤ 11 then s + 3 else s
      else if ["creative work"].contains (pyLower act) then
        if 10 ≤ hour ∧ hour ≤ 12 then s + 2 else s
      else s) = s + activityBonus act hour := by
  unfold activityBonus
  split_ifs <;> omega

/-- The weekday branch adds exactly the spec weekday bonus. -/
theorem productivity_weekday_step (weekday : Nat) (s : Int) :
    (if weekday ≤ 4 then s + 1 else s) = s + weekdayBonus weekday := by
  unfold weekdayBonus
  split_ifs <;> omega

/-- The sequential scoring of `calculate_productivity_score` equals the clamp
of the summed bonuses stated by the spec. -/
theorem calculate_productivity_score_eq (hour : Nat) (act : String) (weekday : Nat) :
    calculate_productivity_score hour act weekday =
      clamp 1 10 (5 + timeOfDayBonus hour + activityBonus act hour
        + weekdayBonus weekday) := by
  unfold calculate_productivity_score clamp
  dsimp only
  rw [productivity_time_step, productivity_activity_step, productivity_weekday_step]

/-- Transient slot candidate produced by `suggest_optimal_time`: the day and
absolute start are kept together with the hour and weekday that fed the
productivity score. -/
structure SlotCandidate where
  day : Nat
  startAbs : Nat
  hour : Nat
  weekday : Nat
  score : Int
deriving Repr, DecidableEq

/-- Descending-score ordering used to sort the suggestions
(`sort(key=..., reverse=True)`). -/
def scoreGE (a b : SlotCandidate) : Prop := b.score ≤ a.score

instance : DecidableRel scoreGE :=
  fun a b => inferInstanceAs (Decidable (b.score ≤ a.score))

instance : IsTotal SlotCandidate scoreGE := ⟨fun a b => Int.le_total b.score a.score⟩

instance : IsTrans SlotCandidate scoreGE := ⟨fun _ _ _ h1 h2 => Int.le_trans h2 h1⟩

/-- Start minutes visited by the 30-minute cursor of `suggest_optimal_time`
across an optimal window `[rs, re]` for a slot of `dur` minutes: the values of
the loop `while current_time + duration <= range_end`. -/
def slotStarts (rs re dur : Nat) : List Nat :=
  if rs + dur ≤ re then (List.range ((re - dur - rs) / 30 + 1)).map (fun i => rs + 30 * i)
  else []

/-- Activity names whose search skips weekends in `suggest_optimal_time`. -/
def workSkipNames : List String := ["meeting", "focus work", "admin"]

/-- Day offsets visited by `suggest_optimal_time`: `0..days_ahead`, skipping
weekend days (weekday index 5 or 6) for the work activity names. `startWd` is
the weekday index of the start date. -/
def optimalDays (act : String) (startWd daysAhead : Nat) : List Nat :=
  (List.range (daysAhead + 1)).filter fun d =>
    !(decide (5 ≤ (startWd + d) % 7) && workSkipNames.contains (pyLower act))

/-- Candidate (day offset, start minute of day) stream of
`suggest_optimal_time` in discovery order: days outer, optimal windows middle,
30-minute cursor inner. -/
def optimalCandidates (act : String) (dur : Nat) (startWd daysAhead : Nat) :
    List (Nat × Nat) :=
  (optimalDays act startWd daysAhead).flatMap fun d =>
    (optimal_ranges act).flatMap fun rg =>
      (slotStarts rg.1 rg.2 dur).map fun c => (d, c)

/-- Suggestions collected by `suggest_optimal_time` before sorting. A
candidate is kept when the store query for its slot returns no events; the
cascaded `len(suggestions) >= 5` break statements keep exactly the first five
free candidates of the stream. `startDay` is the absolute day index of the
start date. -/
def optimalFound (store : List Event) (act : String) (dur : Nat)
    (startDay startWd daysAhead : Nat) : List SlotCandidate :=
  (((optimalCandidates act dur startWd daysAhead).filter fun dc =>
      (listEvents store ((startDay + dc.1) * 1440 + dc.2)
        ((startDay + dc.1) * 1440 + dc.2 + dur)).isEmpty).take 5).map fun dc =>
    { day := startDay + dc.1
      startAbs := (startDay + dc.1) * 1440 + dc.2
      hour := dc.2 / 60
      weekday := (startWd + dc.1) % 7
      score := calculate_productivity_score (dc.2 / 60) act ((startWd + dc.1) % 7) }

/-- The `suggest_optimal_time` tool: collect up to five free candidates, then
sort them descending by productivity score. Python list.sort is stable;
insertion sort keeps the discovery order of equal keys in the same way. -/
def suggest_optimal_time (store : List Event) (act : String) (dur : Nat)
    (startDay startWd daysAhead : Nat) : List SlotCandidate :=
  (optimalFound store act dur startDay startWd daysAhead).insertionSort scoreGE

/-- Inserting into a sorted-by-descending-score list does not disturb the
relative order of any fixed score class. -/
theorem filter_orderedInsert_score (s : Int) (a : SlotCandidate)
    (l : List SlotCandidate) :
    (List.orderedInsert scoreGE a l).filter (fun x => x.score == s) =
      ((a :: l).filter fun x => x.score == s) := by
  induction l with
  | nil => rfl
  | cons c rest ih =>
      simp only [List.orderedInsert]
      split
      · rfl
      · rename_i hns
        have hlt : a.score < c.score := lt_of_not_le hns
        by_cases ha : a.score = s
        · have hc : ¬ c.score = s := by omega
          simp only [List.filter_cons, ih, beq_iff_eq, ha, hc]
          simp [hc, ha]
        · simp only [List.filter_cons, ih, beq_iff_eq]
          simp [ha]

/-- Insertion sort by descending score preserves the relative order of every
fixed score class: it is a stable sort on the score key. -/
theorem filter_insertionSort_score (s : Int) (l : List SlotCandidate) :
    (l.insertionSort scoreGE).filter (fun x => x.score == s) =
      (l.filter fun x => x.score == s) := by
  induction l with
  | nil => rfl
  | cons a rest ih =>
      simp only [List.insertionSort]
      rw [filter_orderedInsert_score]
      simp only [List.filter_cons, ih]

/-- C4: `suggest_optimal_time` returns at most 5 candidates, sorted in
descending order of productivity score, preserving discovery order among
candidates with equal scores (every score class filters to the same sequence
as in the discovery-order list); every score equals the clamped sum of the
stated bonuses; and for the meeting activity on the same weekday a 10:00
candidate scores strictly higher than a 22:00 one. -/
theorem suggest_optimal_time_spec (store : List Event) (act : String) (dur : Nat)
    (startDay startWd daysAhead : Nat) :
    (suggest_optimal_time store act dur startDay startWd daysAhead).length ≤ 5
    ∧ (suggest_optimal_time store act dur startDay startWd daysAhead).Sorted scoreGE
    ∧ (∀ s : Int,
        (suggest_optimal_time store act dur startDay startWd daysAhead).filter
            (fun x => x.score == s) =
          (optimalFound store act dur startDay startWd daysAhead).filter
            (fun x => x.score == s))
    ∧ (∀ x ∈ suggest_optimal_time store act dur startDay startWd daysAhead,
        x.score = clamp 1 10 (5 + timeOfDayBonus x.hour + activityBonus act x.hour
          + weekdayBonus x.weekday))
    ∧ (∀ wd : Nat, calculate_productivity_score 22 "meeting" wd <
        calculate_productivity_score 10 "meeting" wd) := by
  refine ⟨?_, List.sorted_insertionSort scoreGE _,
    fun s => filter_insertionSort_score s _, ?_, ?_⟩
  · rw [show (suggest_optimal_time store act dur startDay startWd daysAhead).length
        = (optimalFound store act dur startDay startWd daysAhead).length from
      (List.perm_insertionSort scoreGE _).length_eq]
    unfold optimalFound
    rw [List.length_map]
    calc (((optimalCandidates act dur startWd daysAhead).filter _).take 5).length
        = min 5 _ := List.length_take 5 _
      _ ≤ 5 := Nat.min_le_left 5 _
  · intro x hx
    have hx' : x ∈ optimalFound store act dur startDay startWd daysAhead :=
      (List.perm_insertionSort scoreGE _).mem_iff.mp hx
    unfold optimalFound at hx'
    rcases List.mem_map.mp hx' with ⟨dc, _, rfl⟩
    exact calculate_productivity_score_eq (dc.2 / 60) act ((startWd + dc.1) % 7)
  · intro wd
    rw [calculate_productivity_score_eq, calculate_productivity_score_eq]
    have h22 : timeOfDayBonus 22 = -2 := by decide
    have h10 : timeOfDayBonus 10 = 3 := by decide
    have ha22 : activityBonus "meeting" 22 = 0 := by
      unfold activityBonus
      split_ifs <;> omega
    have ha10 : 0 ≤ activityBonus "meeting" 10 := by
      unfold activityBonus
      split_ifs <;> omega
    have ha10' : activityBonus "meeting" 10 ≤ 3 := by
      unfold activityBonus
      split_ifs <;> omega
    rw [h22, h10, ha22]
    unfold clamp weekdayBonus
    split_ifs <;> omega

/-- Witness for `suggest_optimal_time_spec`: on a Wednesday, the 10:00 meeting
slot scores strictly higher than the 22:00 one. -/
theorem suggest_optimal_time_spec_witness :
    calculate_productivity_score 22 "meeting" 2 <
      calculate_productivity_score 10 "meeting" 2 :=
  (suggest_optimal_time_spec [] "meeting" 60 0 0 7).2.2.2.2 2

/-- Message of the LangGraph `MessagesState`: role, text content and the tool
call names carried in `additional_kwargs`. -/
structure GMsg where
  role : String
  content : String
  toolCalls : List String
deriving Repr, DecidableEq

/-- Outcome of one graph invocation: either END was reached or the runtime
recursion limit was exhausted (GraphRecursionError). -/
inductive GraphOutcome where
  | done (msgs : List GMsg)
  | recursionError (msgs : List GMsg)
deriving Repr, DecidableEq

/-- Whether the graph run reached END. -/
def GraphOutcome.isDone : GraphOutcome → Bool
  | done _ => true
  | recursionError _ => false

/-- Message state accumulated by the graph run. -/
def GraphOutcome.msgs : GraphOutcome → List GMsg
  | done ms => ms
  | recursionError ms => ms

/-- Modelled from the spec (5.3, 7) and the LangGraph runtime semantics of
the graph built by `_build_graph`, which is compiled without any cap of its
own: START enters the supervisor node, `tools_condition` routes to the tools
node when the supervisor reply carries tool calls and to END otherwise, and
the tools node appends one tool message per call in request order and returns
to the supervisor. The runtime bounds a run by its `recursion_limit`
super-steps (default 25, never configured by the repository) and raises
GraphRecursionError when the limit is exhausted before END. Returns the
outcome and the number of node super-steps executed. -/
def runGraph (oracle : List GMsg → GMsg) (execTool : String → String) :
    Nat → List GMsg → GraphOutcome × Nat
  | 0, msgs => (GraphOutcome.recursionError msgs, 0)
  | 1, msgs =>
      if (oracle msgs).toolCalls.isEmpty then
        (GraphOutcome.done (msgs ++ [oracle msgs]), 1)
      else
        (GraphOutcome.recursionError (msgs ++ [oracle msgs]), 1)
  | limit + 2, msgs =>
      if (oracle msgs).toolCalls.isEmpty then
        (GraphOutcome.done (msgs ++ [oracle msgs]), 1)
      else
        Prod.map id (· + 2) (runGraph oracle execTool limit
          (msgs ++ [oracle msgs] ++
            (oracle msgs).toolCalls.map fun t => ⟨"tool", execTool t, []⟩))

/-- C6 counterexample: with a Decision Oracle that requests an operation on
every iteration, the graph run at the default recursion limit of 25 ends in
GraphRecursionError, not in a Done state with a best-effort partial answer;
`process_message` wraps `graph.ainvoke` in no try block, so the error
propagates to the caller. -/
theorem dispatch_loop_cap_raises :
    ((runGraph (fun _ => ⟨"ai", "", ["noop"]⟩) (fun _ => "ok") 25 []).1).isDone
      = false := by
  decide

/-- C6 amended: every run of the dispatch loop halts within the runtime
recursion limit (the step count never exceeds the limit), but when the
Decision Oracle requests at least one operation on every iteration the run
ends with a recursion-limit error instead of transitioning to Done with a
best-effort partial answer. -/
theorem dispatch_loop_bounded (oracle : List GMsg → GMsg)
    (execTool : String → String) (limit : Nat) (msgs : List GMsg) :
    (runGraph oracle execTool limit msgs).2 ≤ limit
    ∧ ((∀ h : List GMsg, (oracle h).toolCalls ≠ []) →
        ((runGraph oracle execTool limit msgs).1).isDone = false) := by
  induction limit using Nat.strong_induction_on generalizing msgs with
  | _ limit ih =>
    match limit with
    | 0 => exact ⟨Nat.le_refl 0, fun _ => rfl⟩
    | 1 =>
        constructor
        · simp only [runGraph]
          split <;> simp
        · intro halways
          simp only [runGraph]
          rw [if_neg (by simpa using halways msgs)]
          rfl
    | (n + 2) =>
        have ihn := ih n (by omega)
        constructor
        · simp only [runGraph]
          split
          · simp
          · rw [Prod.map_snd]
            exact Nat.le_trans (Nat.add_le_add_right (ihn _).1 2) (Nat.le_refl _)
        · intro halways
          simp only [runGraph]
          rw [if_neg (by simpa using halways msgs), Prod.map_fst]
          exact (ihn _).2 halways

/-- Witness for `dispatch_loop_bounded`: a concrete always-requesting oracle
at the default limit uses at most 25 super-steps and does not reach Done. -/
theorem dispatch_loop_bounded_witness :
    (runGraph (fun _ => ⟨"ai", "pending", ["noop"]⟩) (fun _ => "ok") 25 []).2 ≤ 25
    ∧ ((runGraph (fun _ => ⟨"ai", "pending", ["noop"]⟩) (fun _ => "ok") 25 []).1).isDone
        = false :=
  ⟨(dispatch_loop_bounded (fun _ => ⟨"ai", "pending", ["noop"]⟩)
      (fun _ => "ok") 25 []).1,
    (dispatch_loop_bounded (fun _ => ⟨"ai", "pending", ["noop"]⟩)
      (fun _ => "ok") 25 []).2 (fun _ => by decide)⟩

/-- Python substring test `needle in hay`. -/
def strContains (hay needle : String) : Bool := decide (needle.data <:+: hay.data)

/-- Tool-name fragments mapped to the Finance Agent. -/
def financeTools : List String :=
  ["add_expense", "get_expense", "delete_expense", "update_expense",
    "get_total_spending"]

/-- Tool-name fragments mapped to the Calendar Agent. -/
def calendarTools : List String :=
  ["list_upcoming_events", "create_event", "get_events", "delete_event",
    "update_event", "move_event"]

/-- Tool-name fragments mapped to the Search Agent. -/
def searchTools : List String := ["tavily_search", "mock_search"]

/-- Tool-name fragments mapped to the Note Agent. -/
def noteTools : List String := ["record_note", "list_notes"]

/-- Tool-name fragments mapped to the OCR Agent. -/
def ocrTools : List String := ["process_document", "search_document", "list_documents"]

/-- Static name-to-tag table of the attribution code in `process_message`:
the lowercased invoked tool name is matched against each fragment list in
order; no match yields none. -/
def tagOfToolName (name : String) : Option String :=
  if financeTools.any (fun t => strContains (pyLower name) t) then some "Finance Agent"
  else if calendarTools.any (fun t => strContains (pyLower name) t) then some "Calendar Agent"
  else if searchTools.any (fun t => strContains (pyLower name) t) then some "Search Agent"
  else if noteTools.any (fun t => strContains (pyLower name) t) then some "Note Agent"
  else if ocrTools.any (fun t => strContains (pyLower name) t) then some "OCR Agent"
  else none

/-- Keywords of the response-text fallback mapped to the Finance Agent. -/
def financeKeywords : List String :=
  ["chi tiêu", "expense", "vnd", "tổng chi tiêu", "lịch sử chi tiêu"]

/-- Keywords of the response-text fallback mapped to the Calendar Agent. -/
def calendarKeywords : List String :=
  ["lịch", "sự kiện", "event", "calendar", "thời gian"]

/-- Keywords of the response-text fallback mapped to the Search Agent. -/
def searchKeywords : List String :=
  ["tìm kiếm web", "kết quả tìm kiếm", "nguồn tin", "tavily"]

/-- Keywords of the response-text fallback mapped to the Note Agent. -/
def noteKeywords : List String :=
  ["ghi chú", "note", "recorded note", "đã lưu ghi chú"]

/-- Keywords of the response-text fallback mapped to the OCR Agent. -/
def ocrKeywords : List String :=
  ["ocr", "tài liệu", "document", "pdf", "trích xuất", "xử lý file",
    "tìm kiếm tài liệu"]

/-- Keyword fallback of the attribution code: scan the lowercased final
answer for capability-specific keywords, defaulting to the Supervisor
Agent. -/
def keywordTag (response : String) : String :=
  if financeKeywords.any (fun k => strContains (pyLower response) k) then "Finance Agent"
  else if calendarKeywords.any (fun k => strContains (pyLower response) k) then "Calendar Agent"
  else if searchKeywords.any (fun k => strContains (pyLower response) k) then "Search Agent"
  else if noteKeywords.any (fun k => strContains (pyLower response) k) then "Note Agent"
  else if ocrKeywords.any (fun k => strContains (pyLower response) k) then "OCR Agent"
  else "Supervisor Agent"

/-- First table hit over the messages that carry tool calls: each such
message contributes the name of its first tool call; the scan stops at the
first name the table maps. -/
def scanToolMessages : List GMsg → Option String
  | [] => none
  | m :: rest =>
      match m.toolCalls with
      | [] => scanToolMessages rest
      | t :: _ =>
          match tagOfToolName t with
          | some tag => some tag
          | none => scanToolMessages rest

/-- The attribution loop of `process_message`, faithful to the control flow:
walk the result messages with the `tool_calls_found` flag; a message with
tool calls sets the flag and breaks with the mapped tag of its first call
when the table matches; after the walk the keyword fallback runs only when
the flag was never set, and the default is the Supervisor Agent. -/
def attributionGo (response : String) : List GMsg → Bool → String
  | [], found => if found then "Supervisor Agent" else keywordTag response
  | m :: rest, found =>
      match m.toolCalls with
      | [] => attributionGo response rest found
      | t :: _ =>
          match tagOfToolName t with
          | some tag => tag
          | none => attributionGo response rest true

/-- Capability attribution of a completed turn, as computed at the end of
`process_message`. -/
def determine_agent_name (msgs : List GMsg) (response : String) : String :=
  attributionGo response msgs false

/-- Attribution as the spec states it: when any operation was invoked the tag
comes from the static name-to-tag table applied to the invoked operation
names; when none was invoked the tag comes from the keyword scan of the final
answer; in all remaining cases the tag is the name of the orchestrator. -/
def attributionSpec (msgs : List GMsg) (response : String) : String :=
  if msgs.any (fun m => !m.toolCalls.isEmpty) then
    (scanToolMessages msgs).getD "Supervisor Agent"
  else keywordTag response

/-- Once the `tool_calls_found` flag is set, the attribution loop reduces to
the table scan with the Supervisor Agent default. -/
theorem attributionGo_true (response : String) (l : List GMsg) :
    attributionGo response l true = (scanToolMessages l).getD "Supervisor Agent" := by
  induction l with
  | nil => rfl
  | cons m rest ih =>
      rcases hm : m.toolCalls with _ | ⟨t, ts⟩ <;>
        simp only [attributionGo, scanToolMessages, hm]
      · exact ih
      · rcases ht : tagOfToolName t with _ | tag <;> simp only [ht]
        · exact ih
        · rfl

/-- C7: the attribution computed by `process_message` equals the spec
description: a tag from the static name-to-tag table over the invoked
operation names when any operation was invoked, the keyword scan of the final
answer when none was, and the Supervisor Agent in all remaining cases. -/
theorem determine_agent_name_spec (msgs : List GMsg) (response : String) :
    determine_agent_name msgs response = attributionSpec msgs response := by
  unfold determine_agent_name attributionSpec
  induction msgs with
  | nil => rfl
  | cons m rest ih =>
      rcases hm : m.toolCalls with _ | ⟨t, ts⟩ <;>
        simp only [attributionGo, scanToolMessages, List.any_cons, hm,
          List.isEmpty_nil, List.isEmpty_cons, Bool.not_true, Bool.not_false,
          Bool.false_or, Bool.true_or, if_true]
      · exact ih
      · rcases ht : tagOfToolName t with _ | tag <;> simp only [ht]
        · exact attributionGo_true response rest
        · rfl

/-- Message persisted by the per-conversation storage service: the id
assigned at save time, the role string, the content and the optional agent
name. -/
structure StoredMsg where
  mid : Nat
  message_type : String
  content : String
  agent_name : Option String
deriving Repr, DecidableEq

/-- The `save_message` operation of the per-conversation storage on the
message list of one thread file: when the service is initialized it loads the
existing messages, appends one new message whose id is the previous count
plus one, and writes the list back, reporting success; when not initialized
it reports failure and changes nothing. -/
def save_message (isInit : Bool) (msgs : List StoredMsg)
    (message_type content : String) (agent_name : Option String) :
    Bool × List StoredMsg :=
  if isInit then
    (true, msgs ++ [⟨msgs.length + 1, message_type, content, agent_name⟩])
  else
    (false, msgs)

/-- A sequence of `save_message` calls on one thread file, each op giving the
role and content of one message. -/
def runSaves (msgs : List StoredMsg) (ops : List (String × String)) :
    List StoredMsg :=
  ops.foldl (fun acc op => (save_message true acc op.1 op.2 none).2) msgs

/-- Ids produced by a save sequence continue the consecutive numbering after
the existing messages. -/
theorem runSaves_ids (ops : List (String × String)) :
    ∀ msgs : List StoredMsg,
      (runSaves msgs ops).map (·.mid) =
        msgs.map (·.mid) ++ List.range' (msgs.length + 1) ops.length := by
  induction ops with
  | nil =>
      intro msgs
      simp [runSaves]
  | cons op ops ih =>
      intro msgs
      have hstep : runSaves msgs (op :: ops) =
          runSaves (msgs ++ [⟨msgs.length + 1, op.1, op.2, none⟩]) ops := rfl
      rw [hstep, ih]
      simp [List.range'_succ]

/-- C10: a successful `save_message` appends exactly one message at the end
of the stored list, leaves the previously stored messages unchanged, and
assigns the id previous-count-plus-one; a call on an uninitialized service
fails and changes nothing; and after any sequence of saves on an initially
empty thread file the stored ids are consecutively 1..n in insertion
order. -/
theorem save_message_spec (msgs : List StoredMsg)
    (message_type content : String) (agent_name : Option String) :
    save_message true msgs message_type content agent_name =
      (true, msgs ++ [⟨msgs.length + 1, message_type, content, agent_name⟩])
    ∧ save_message false msgs message_type content agent_name = (false, msgs)
    ∧ ∀ ops : List (String × String),
        (runSaves [] ops).map (·.mid) = List.range' 1 ops.length := by
  refine ⟨rfl, rfl, fun ops => ?_⟩
  simpa using runSaves_ids ops []

/-- Role of the human turn in the graph state. -/
def humanRole : String := "human"

/-- Persisted-storage effect of `process_message` on the thread history: the
user message is saved to the per-conversation storage before the graph run;
the graph result feeds only the response text (the content of the last result
message) and the attribution of the single assistant message saved after the
run; tool-result messages are never written to the per-conversation storage.
When the graph run raises, the error propagates and only the user message has
been persisted. Returns the new history and the formatted reply on
success. -/
def process_message (hist : List StoredMsg) (userText : String)
    (oracle : List GMsg → GMsg) (execTool : String → String) (limit : Nat) :
    Except (List StoredMsg) (List StoredMsg × String) :=
  match runGraph oracle execTool limit [⟨humanRole, userText, []⟩] with
  | (GraphOutcome.recursionError _, _) =>
      Except.error (save_message true hist "user" userText none).2
  | (GraphOutcome.done ms, _) =>
      Except.ok
        ((save_message true (save_message true hist "user" userText none).2
            "assistant" ((ms.getLast?.map (·.content)).getD "")
            (some (determine_agent_name ms ((ms.getLast?.map (·.content)).getD "")))).2,
          "[" ++ determine_agent_name ms ((ms.getLast?.map (·.content)).getD "")
            ++ "] " ++ (ms.getLast?.map (·.content)).getD "")

/-- Number of operation batches of a graph run: the replies that carry tool
calls, each of which triggered one tools-node execution. -/
def batchCount (out : GraphOutcome) : Nat :=
  out.msgs.countP (fun m => !m.toolCalls.isEmpty)

/-- C5 amended: a completed `process_message` call appends exactly two
messages to the persisted thread history - the user message and the final
assistant message - regardless of how many operation batches the graph
executed; tool results are never persisted. A run that fails persists only
the user message. With 3 prior messages the persisted length afterwards is
therefore 5, not 5 + N. -/
theorem process_message_persists_two (hist : List StoredMsg) (userText : String)
    (oracle : List GMsg → GMsg) (execTool : String → String) (limit : Nat) :
    (match process_message hist userText oracle execTool limit with
      | Except.ok (hist2, _) =>
          hist2.length = hist.length + 2
          ∧ ∃ resp agent, hist2 = hist ++
              [⟨hist.length + 1, "user", userText, none⟩,
                ⟨hist.length + 2, "assistant", resp, some agent⟩]
      | Except.error hist1 =>
          hist1 = hist ++ [⟨hist.length + 1, "user", userText, none⟩]) := by
  unfold process_message
  rcases hrun : runGraph oracle execTool limit [⟨humanRole, userText, []⟩] with ⟨out, steps⟩
  rcases out with ms | ms
  · simp only [save_message, if_pos, if_true]
    refine ⟨by simp, (ms.getLast?.map (·.content)).getD "",
      determine_agent_name ms ((ms.getLast?.map (·.content)).getD ""), ?_⟩
    simp [List.append_assoc]
  · simp [save_message]

/-- C5 counterexample ingredients: a thread history holding 3 prior
messages. -/
def hist3 : List StoredMsg :=
  [⟨1, "user", "a", none⟩, ⟨2, "assistant", "b", some "Supervisor Agent"⟩,
    ⟨3, "user", "c", none⟩]

/-- C5 counterexample ingredients: a Decision Oracle that requests one
operation batch and then answers. -/
def oneBatchOracle : List GMsg → GMsg := fun h =>
  if h.length ≤ 1 then ⟨"ai", "", ["create_event"]⟩ else ⟨"ai", "done", []⟩

/-- Length of the history persisted by a `process_message` call, whether it
completed or failed. -/
def persistedLength : Except (List StoredMsg) (List StoredMsg × String) → Nat
  | Except.ok (hist2, _) => hist2.length
  | Except.error hist1 => hist1.length

/-- C5 counterexample: a completed `process_message` run that executed
exactly one operation batch (N = 1) on a thread with 3 prior messages leaves
a persisted history of length 5, not 3 + 2 + N = 6: the tool-result message
is not persisted. -/
theorem process_message_not_three_plus_two_plus_batches :
    batchCount (runGraph oneBatchOracle (fun _ => "ok") 25
        [⟨humanRole, "hi", []⟩]).1 = 1
    ∧ persistedLength (process_message hist3 "hi" oneBatchOracle
        (fun _ => "ok") 25) = 5
    ∧ (5 : Nat) ≠ 3 + 2 + 1 := by
  refine ⟨by decide, by decide, by decide⟩

/-- Log row of the chat-history logs table. -/
structure LogRow where
  thread_id : String
  content : String
  is_deleted : Bool
deriving Repr, DecidableEq

/-- Conversation metadata row of the conversations table. -/
structure ConvRow where
  thread_id : String
  title : String
  is_deleted : Bool
deriving Repr, DecidableEq

/-- Storage state touched by thread deletion: the logs table, the
conversation metadata table, and the per-conversation message files keyed by
thread id. -/
structure SysState where
  logs : List LogRow
  convs : List ConvRow
  convFiles : List (String × List StoredMsg)
deriving Repr, DecidableEq

/-- `LogsService.delete_thread` of the backend service. The guard
`if not self.session` runs before the try block of the method, and the
backend initializer assigns only the engine and the initialized flag - a
`session` attribute is never created anywhere in the class (only the method
`get_session` exists) - so reading `self.session` raises AttributeError
before any row is touched. `hasSessionAttr` models whether the object carries
the attribute: with it, the method would mark the rows of the thread as
deleted and report success; without it, it raises. -/
def logs_delete_thread (hasSessionAttr : Bool) (logs : List LogRow)
    (tid : String) : Except String (List LogRow × Bool) :=
  if hasSessionAttr = false then
    Except.error "AttributeError: LogsService has no attribute session"
  else
    Except.ok
      (logs.map fun r =>
        if r.thread_id = tid then { r with is_deleted := true } else r, true)

/-- `ConversationService.delete_conversation`: soft delete of the
conversation record, marking the not-yet-deleted rows of the thread as
deleted; reports whether any row was updated. -/
def delete_conversation (convs : List ConvRow) (tid : String) :
    List ConvRow × Bool :=
  (convs.map fun r =>
      if r.thread_id = tid ∧ r.is_deleted = false then { r with is_deleted := true }
      else r,
    convs.any fun r => r.thread_id == tid && !r.is_deleted)

/-- `ConversationService.get_conversation_by_thread_id`: the first
conversation row of the thread whose deleted flag is off. -/
def get_conversation_by_thread_id (convs : List ConvRow) (tid : String) :
    Option ConvRow :=
  (convs.filter fun r => r.thread_id == tid && !r.is_deleted).head?

/-- `delete_conversation_messages` of the per-conversation storage: when the
thread message file exists it is removed (`os.remove`) and success is
reported; otherwise nothing changes and failure is reported. -/
def delete_conversation_messages (files : List (String × List StoredMsg))
    (tid : String) : List (String × List StoredMsg) × Bool :=
  if files.any (fun f => f.1 == tid) then
    (files.filter fun f => !(f.1 == tid), true)
  else
    (files, false)

/-- `get_conversation_messages`: the stored message list of the thread file,
empty when the file does not exist. -/
def get_conversation_messages (files : List (String × List StoredMsg))
    (tid : String) : List StoredMsg :=
  ((files.find? fun f => f.1 == tid).map (·.2)).getD []

/-- `MultiAgentSystem.delete_thread`: awaits the logs-service delete first,
inside a try block, then the per-conversation message-file removal. The logs
service it holds is the backend one, whose session attribute never exists, so
the first call raises AttributeError; the except branch catches it and
returns False before `delete_conversation_messages` is reached, leaving every
store unchanged. The conversation metadata table is not touched by this
operation on any path. -/
def delete_thread (st : SysState) (tid : String) : SysState × Bool :=
  match logs_delete_thread false st.logs tid with
  | Except.error _ => (st, false)
  | Except.ok (logs2, logsDeleted) =>
      ({ logs := logs2
         convs := st.convs
         convFiles := (delete_conversation_messages st.convFiles tid).1 },
        logsDeleted || (delete_conversation_messages st.convFiles tid).2)

/-- C8 counterexample ingredients: a state holding one thread with one
persisted message. -/
def st1 : SysState :=
  { logs := [⟨"t1", "hello", false⟩]
    convs := [⟨"t1", "Chat", false⟩]
    convFiles := [("t1", [⟨1, "user", "hello", none⟩])] }

/-- After the file removal no file of the thread remains. -/
theorem find_after_delete_messages (files : List (String × List StoredMsg))
    (tid : String) :
    (delete_conversation_messages files tid).1.find? (fun f => f.1 == tid) = none := by
  unfold delete_conversation_messages
  split
  · apply List.find?_eq_none.mpr
    intro f hf
    have := List.of_mem_filter hf
    simpa using this
  · rename_i hany
    apply List.find?_eq_none.mpr
    intro f hf hpf
    exact hany (List.any_eq_true.mpr ⟨f, hf, hpf⟩)

/-- C8 counterexample: deleting a thread is not a soft delete - it is a
failing no-op. On a state with one live thread, `delete_thread` reports
failure and leaves every store untouched: the log row is not marked deleted,
the flag-filtered metadata lookup still returns the thread, and the stored
messages are still present. The logs service lacks its session attribute, so
its delete raises before any row is touched, and the wrapper catches the
error and returns False before the message-file removal is reached. -/
theorem delete_thread_marks_nothing :
    delete_thread st1 "t1" = (st1, false)
    ∧ (delete_thread st1 "t1").1.logs = [⟨"t1", "hello", false⟩]
    ∧ get_conversation_by_thread_id (delete_thread st1 "t1").1.convs "t1"
        = some ⟨"t1", "Chat", false⟩
    ∧ get_conversation_messages (delete_thread st1 "t1").1.convFiles "t1"
        = [⟨1, "user", "hello", none⟩] := by
  refine ⟨rfl, rfl, rfl, rfl⟩

/-- C8 amended: `delete_conversation` on the conversation metadata store is a
genuine soft delete - the record count is preserved, the rows of the thread
are marked deleted, and the flag-filtered lookup no longer returns the
thread - but `deleteThread` on the multi-agent system never succeeds and
never modifies storage: the backend logs service lacks its session attribute,
its delete raises AttributeError, and the wrapper catches the error and
returns False before the per-conversation message-file removal is reached, so
log rows stay unmarked and the stored messages of the thread survive. -/
theorem delete_thread_spec (st : SysState) (tid : String) :
    delete_thread st tid = (st, false)
    ∧ get_conversation_messages (delete_thread st tid).1.convFiles tid
        = get_conversation_messages st.convFiles tid
    ∧ (∀ convs : List ConvRow,
        (delete_conversation convs tid).1.length = convs.length
        ∧ (∀ r ∈ (delete_conversation convs tid).1,
            r.thread_id = tid → r.is_deleted = true)
        ∧ get_conversation_by_thread_id (delete_conversation convs tid).1 tid
            = none) := by
  refine ⟨rfl, rfl, ?_⟩
  intro convs
  refine ⟨List.length_map _ _, ?_, ?_⟩
  · intro r hr htid
    rcases List.mem_map.mp hr with ⟨x, hx, heq⟩
    by_cases hx1 : x.thread_id = tid ∧ x.is_deleted = false
    · rw [← heq]
      simp [hx1]
    · rw [← heq] at htid ⊢
      simp only [if_neg hx1] at htid ⊢
      cases hdel : x.is_deleted with
      | false => exact absurd ⟨htid, hdel⟩ hx1
      | true => rfl
  · unfold get_conversation_by_thread_id
    rw [List.filter_eq_nil_iff.mpr]
    · rfl
    · intro r hr hpr
      rcases List.mem_map.mp hr with ⟨x, hx, heq⟩
      simp only [Bool.and_eq_true, beq_iff_eq, Bool.not_eq_true'] at hpr
      by_cases hx1 : x.thread_id = tid ∧ x.is_deleted = false
      · rw [← heq] at hpr
        simp [hx1] at hpr
      · rw [← heq] at hpr
        simp only [if_neg hx1] at hpr
        exact hx1 ⟨hpr.1, hpr.2⟩

/-- Witness for `delete_thread_spec`: on the concrete one-thread state,
deleting a different thread id is also a failing no-op. -/
theorem delete_thread_spec_witness :
    delete_thread st1 "t2" = (st1, false) :=
  (delete_thread_spec st1 "t2").1

end VNASelf
